import Mathlib

/-!
Verification of the RCS in-memory cache server (package `cache` and package
`nativesrv`) against its natural-language specification.

Byte strings (`[]byte` and `string` in the Go source) are modelled as
`List Nat`, one `Nat` per byte.  Optional (nilable) byte slices are modelled as
`Option (List Nat)` with `none` standing for Go's `nil`.  Times
(`time.Time.UnixNano`) are modelled as `Int` nanosecond counts passed
explicitly to each operation that reads the clock.
-/

set_option maxHeartbeats 1000000
set_option linter.unusedVariables false

namespace RCS

/-- Byte string of an ASCII string literal. -/
def bytesOfString (s : String) : List Nat := s.data.map Char.toNat

/-- The two-byte line terminator `"\r\n"`. -/
def crlf : List Nat := [13, 10]

/-- The two-byte field separator `": "`. -/
def colonSp : List Nat := [58, 32]

/-- First index at which `sep` occurs in `s` (Go's `bytes.Index`). -/
def listIndex (sep : List Nat) : List Nat → Option Nat
  | [] => if sep = [] then some 0 else none
  | x :: tl =>
    if sep.isPrefixOf (x :: tl) then some 0
    else (listIndex sep tl).map (· + 1)

/-- Go's `bytes.SplitN s sep n`: split `s` around non-overlapping instances of
`sep` into at most `n` pieces, the last piece holding the unsplit remainder.
`n = 0` yields the empty list, as in Go. -/
def splitN (sep : List Nat) : Nat → List Nat → List (List Nat)
  | 0, _ => []
  | 1, s => [s]
  | n + 2, s =>
    match listIndex sep s with
    | none => [s]
    | some i => s.take i :: splitN sep (n + 1) (s.drop (i + sep.length))

/-- Go's `bytes.Split s [b]`: split around every occurrence of the byte `b`. -/
def splitElem (b : Nat) : List Nat → List (List Nat)
  | [] => [[]]
  | x :: xs =>
    if x = b then [] :: splitElem b xs
    else
      match splitElem b xs with
      | [] => [[x]]
      | h :: t => (x :: h) :: t

/-- Go's `bytes.TrimSuffix s suf`: remove one trailing copy of `suf` if present. -/
def trimSuffix (suf s : List Nat) : List Nat :=
  if suf.isSuffixOf s then s.take (s.length - suf.length) else s

/-! ### Lemmas about byte-string primitives -/

theorem isPrefixOf_self_append (p t : List Nat) : p.isPrefixOf (p ++ t) = true := by
  induction p with
  | nil => simp [List.isPrefixOf]
  | cons a as ih => simp [List.isPrefixOf, ih]

theorem eq_append_drop_of_isPrefixOf {p s : List Nat} (h : p.isPrefixOf s = true) :
    s = p ++ s.drop p.length := by
  induction p generalizing s with
  | nil => simp
  | cons a as ih =>
    cases s with
    | nil => simp [List.isPrefixOf] at h
    | cons b bs =>
      simp only [List.isPrefixOf, Bool.and_eq_true, beq_iff_eq] at h
      obtain ⟨rfl, h2⟩ := h
      simpa using ih h2

theorem isPrefixOf_of_isPrefixOf_cons_take {sep : List Nat} {x : Nat} {tl : List Nat} {j : Nat}
    (h : sep.isPrefixOf (x :: tl.take j) = true) : sep.isPrefixOf (x :: tl) = true := by
  have hpre : (x :: tl.take j) <+: (x :: tl) := by
    exact List.cons_prefix_cons.mpr ⟨rfl, List.take_prefix j tl⟩
  have h1 : sep <+: (x :: tl.take j) := by
    simpa [ List.isPrefixOf_iff_prefix] using h
  have := h1.trans hpre
  simpa [ List.isPrefixOf_iff_prefix] using this

theorem listIndex_nil_of_ne {sep : List Nat} (h : sep ≠ []) : listIndex sep [] = none := by
  simp [listIndex, h]

theorem listIndex_take_eq_none {sep s : List Nat} {i : Nat} (hsep : sep ≠ [])
    (h : listIndex sep s = some i) : listIndex sep (s.take i) = none := by
  induction s generalizing i with
  | nil => simp [listIndex_nil_of_ne hsep] at h
  | cons x tl ih =>
    by_cases hp : sep.isPrefixOf (x :: tl) = true
    · have : i = 0 := by simp [listIndex, hp] at h; omega
      subst this
      simp [listIndex_nil_of_ne hsep]
    · simp only [listIndex, hp] at h
      simp only [Bool.false_eq_true, if_false] at h
      match hi : listIndex sep tl with
      | none => rw [hi] at h; simp at h
      | some j =>
        rw [hi] at h
        simp only [Option.map_some', Option.some.injEq] at h
        subst h
        have htl := ih hi
        simp only [List.take_succ_cons, listIndex]
        have hp2 : sep.isPrefixOf (x :: tl.take j) = false := by
          by_contra hc
          have : sep.isPrefixOf (x :: tl.take j) = true := by
            revert hc; cases sep.isPrefixOf (x :: tl.take j) <;> simp
          exact absurd (isPrefixOf_of_isPrefixOf_cons_take this) (by simp [hp])
        simp [hp2, htl]

theorem eq_of_listIndex_some {sep s : List Nat} {i : Nat}
    (h : listIndex sep s = some i) :
    s = s.take i ++ sep ++ s.drop (i + sep.length) := by
  induction s generalizing i with
  | nil =>
    by_cases hsep : sep = []
    · subst hsep; simp
    · simp [listIndex, hsep] at h
  | cons x tl ih =>
    by_cases hp : sep.isPrefixOf (x :: tl) = true
    · have hi : i = 0 := by simp [listIndex, hp] at h; omega
      subst hi
      have := eq_append_drop_of_isPrefixOf hp
      simpa using this
    · simp only [listIndex, hp, Bool.false_eq_true, if_false] at h
      match hj : listIndex sep tl with
      | none => rw [hj] at h; simp at h
      | some j =>
        rw [hj] at h
        simp only [Option.map_some', Option.some.injEq] at h
        subst h
        have := ih hj
        have harr : List.drop (j + 1 + sep.length) (x :: tl) = List.drop (j + sep.length) tl := by
          have he : j + 1 + sep.length = (j + sep.length) + 1 := by omega
          rw [he, List.drop_succ_cons]
        simp only [List.take_succ_cons, List.cons_append, harr]
        exact congrArg (x :: ·) this


theorem isPrefixOf_append_left {p s : List Nat} (t : List Nat)
    (h : p.isPrefixOf s = true) : p.isPrefixOf (s ++ t) = true := by
  have h1 : p <+: s := by simpa [ List.isPrefixOf_iff_prefix] using h
  have h2 : p <+: (s ++ t) := h1.trans (List.prefix_append s t)
  simpa [ List.isPrefixOf_iff_prefix] using h2

theorem crlf_isPrefixOf_two_true {x y : Nat} (w : List Nat) (hx : x = 13) (hy : y = 10) :
    crlf.isPrefixOf (x :: y :: w) = true := by
  subst hx; subst hy
  simp [crlf, List.isPrefixOf]

theorem crlf_isPrefixOf_two_false {x y : Nat} (w : List Nat) (h : ¬ (x = 13 ∧ y = 10)) :
    crlf.isPrefixOf (x :: y :: w) = false := by
  show List.isPrefixOf [13, 10] (x :: y :: w) = false
  simp [List.isPrefixOf]
  omega

theorem crlf_isPrefixOf_single {x : Nat} : crlf.isPrefixOf [x] = false := by
  show List.isPrefixOf [13, 10] [x] = false
  simp [List.isPrefixOf]

theorem listIndex_crlf_cons {x : Nat} {tl : List Nat} (h : listIndex crlf (x :: tl) = none) :
    listIndex crlf tl = none := by
  by_cases hp : crlf.isPrefixOf (x :: tl) = true
  · simp [listIndex, hp] at h
  · simp only [listIndex, hp, Bool.false_eq_true, if_false] at h
    cases hj : listIndex crlf tl with
    | none => rfl
    | some j => rw [hj] at h; simp at h

theorem listIndex_crlf_boundary (a rest : List Nat) (h : listIndex crlf a = none) :
    listIndex crlf (a ++ crlf ++ rest) = some a.length := by
  induction a with
  | nil => simp [listIndex, crlf, List.isPrefixOf]
  | cons x a' ih =>
    have h' : listIndex crlf a' = none := listIndex_crlf_cons h
    have hnp : crlf.isPrefixOf (x :: (a' ++ crlf ++ rest)) = false := by
      cases a' with
      | nil =>
        refine crlf_isPrefixOf_two_false _ ?_
        rintro ⟨-, hc⟩
        simp at hc
      | cons y a'' =>
        refine crlf_isPrefixOf_two_false _ ?_
        rintro ⟨hx, hy⟩
        have hpp := crlf_isPrefixOf_two_true a'' hx hy
        simp [listIndex, hpp] at h
    show listIndex crlf (x :: (a' ++ crlf ++ rest)) = some (a'.length + 1)
    rw [listIndex, if_neg (by rw [hnp]; simp), ih h']
    rfl

theorem listIndex_crlf_append_right {s : List Nat} (t : List Nat) {i : Nat}
    (h : listIndex crlf s = some i) : listIndex crlf (s ++ t) = some i := by
  induction s generalizing i with
  | nil => simp [listIndex, crlf] at h
  | cons x tl ih =>
    by_cases hp : crlf.isPrefixOf (x :: tl) = true
    · have hi : i = 0 := by simp [listIndex, hp] at h; omega
      subst hi
      have hq := isPrefixOf_append_left t hp
      simp only [List.cons_append] at hq ⊢
      rw [listIndex, if_pos hq]
    · simp only [listIndex, hp, Bool.false_eq_true, if_false] at h
      cases hj : listIndex crlf tl with
      | none => rw [hj] at h; simp at h
      | some j =>
        rw [hj] at h
        simp only [Option.map_some', Option.some.injEq] at h
        subst h
        have htl : tl ≠ [] := by
          intro hc; subst hc; simp [listIndex, crlf] at hj
        have hnp : crlf.isPrefixOf (x :: (tl ++ t)) = false := by
          cases tl with
          | nil => exact absurd rfl htl
          | cons z w =>
            refine crlf_isPrefixOf_two_false _ ?_
            rintro ⟨hx, hz⟩
            exact hp (crlf_isPrefixOf_two_true w hx hz)
        show listIndex crlf (x :: (tl ++ t)) = some (j + 1)
        rw [listIndex, if_neg (by rw [hnp]; simp), ih hj]
        rfl

theorem listIndex_isSome_of_append (sep y r : List Nat) :
    (listIndex sep (y ++ sep ++ r)).isSome = true := by
  induction y with
  | nil =>
    cases sep with
    | nil => cases r <;> simp [listIndex]
    | cons a as =>
      have hq : (a :: as).isPrefixOf ((a :: as) ++ r) = true := isPrefixOf_self_append _ _
      simp only [List.nil_append, List.cons_append] at hq ⊢
      rw [listIndex, if_pos hq]
      rfl
  | cons x y' ih =>
    show (listIndex sep (x :: (y' ++ sep ++ r))).isSome = true
    rw [listIndex]
    by_cases hp : sep.isPrefixOf (x :: (y' ++ sep ++ r)) = true
    · rw [if_pos hp]; rfl
    · rw [if_neg hp]
      cases hj : listIndex sep (y' ++ sep ++ r) with
      | none => rw [hj] at ih; simp at ih
      | some j => rfl

theorem splitN_of_none {sep s : List Nat} (n : Nat) (h : listIndex sep s = none) :
    splitN sep (n + 2) s = [s] := by
  simp [splitN, h]

theorem splitN_crlf_step (n : Nat) (a rest : List Nat) (h : listIndex crlf a = none) :
    splitN crlf (n + 2) (a ++ crlf ++ rest) = a :: splitN crlf (n + 1) rest := by
  have hi := listIndex_crlf_boundary a rest h
  simp only [splitN, hi]
  have ht : (a ++ crlf ++ rest).take a.length = a := by
    rw [List.append_assoc]
    exact List.take_left a (crlf ++ rest)
  have hd : (a ++ crlf ++ rest).drop (a.length + crlf.length) = rest := by
    have he : a.length + crlf.length = (a ++ crlf).length := by simp
    rw [he]
    exact List.drop_left (a ++ crlf) rest
  rw [ht, hd]

theorem splitElem_ne_nil (b : Nat) (l : List Nat) : splitElem b l ≠ [] := by
  cases l with
  | nil => simp [splitElem]
  | cons x xs =>
    by_cases hx : x = b
    · simp [splitElem, hx]
    · simp only [splitElem, hx, Bool.false_eq_true, if_false]
      cases splitElem b xs <;> simp

theorem splitElem_cons_eq (b x : Nat) (xs : List Nat) :
    splitElem b (x :: xs) =
      if x = b then [] :: splitElem b xs
      else
        match splitElem b xs with
        | [] => [[x]]
        | h :: t => (x :: h) :: t := rfl

theorem splitElem_of_not_mem {b : Nat} {x : List Nat} (h : b ∉ x) : splitElem b x = [x] := by
  induction x with
  | nil => rfl
  | cons a as ih =>
    have ha : ¬ a = b := fun hc => h (hc ▸ List.mem_cons_self a as)
    have has : b ∉ as := fun hc => h (List.mem_cons_of_mem a hc)
    rw [splitElem_cons_eq, if_neg ha, ih has]

theorem splitElem_append {b : Nat} {x : List Nat} (y : List Nat) (h : b ∉ x) :
    splitElem b (x ++ b :: y) = x :: splitElem b y := by
  induction x with
  | nil =>
    show splitElem b (b :: y) = [] :: splitElem b y
    rw [splitElem_cons_eq, if_pos rfl]
  | cons a as ih =>
    have ha : ¬ a = b := fun hc => h (hc ▸ List.mem_cons_self a as)
    have has : b ∉ as := fun hc => h (List.mem_cons_of_mem a hc)
    show splitElem b (a :: (as ++ b :: y)) = (a :: as) :: splitElem b y
    rw [splitElem_cons_eq, if_neg ha, ih has]

theorem not_mem_cons_of_ne_of_not_mem {b a : Nat} {t : List Nat}
    (h1 : ¬ a = b) (h2 : b ∉ t) : b ∉ a :: t := by
  intro hc
  rcases List.mem_cons.mp hc with h | h
  · exact h1 h.symm
  · exact h2 h

theorem splitElem_singleton {b : Nat} {l t : List Nat} (h : splitElem b l = [t]) :
    l = t ∧ b ∉ t := by
  induction l generalizing t with
  | nil =>
    have h1 : ([] : List Nat) = t := by
      have : ([[]] : List (List Nat)) = [t] := h
      injection this with h1 _
    subst h1
    exact ⟨rfl, by simp⟩
  | cons a as ih =>
    by_cases ha : a = b
    · subst ha
      rw [splitElem_cons_eq, if_pos rfl] at h
      injection h with h1 h2
      exact absurd h2 (splitElem_ne_nil a as)
    · rw [splitElem_cons_eq, if_neg ha] at h
      cases hs : splitElem b as with
      | nil => exact absurd hs (splitElem_ne_nil b as)
      | cons hd tl =>
        rw [hs] at h
        injection h with h1 h2
        subst h2
        have h3 : splitElem b as = [hd] := hs
        obtain ⟨rfl, hmem⟩ := ih h3
        exact ⟨h1 ▸ rfl, h1 ▸ not_mem_cons_of_ne_of_not_mem ha hmem⟩

theorem splitElem_pair {b : Nat} {l t0 t1 : List Nat} (h : splitElem b l = [t0, t1]) :
    l = t0 ++ b :: t1 ∧ b ∉ t0 ∧ b ∉ t1 := by
  induction l generalizing t0 with
  | nil =>
    have : ([[]] : List (List Nat)) = [t0, t1] := h
    injection this with _ h2
    simp at h2
  | cons a as ih =>
    by_cases ha : a = b
    · subst ha
      rw [splitElem_cons_eq, if_pos rfl] at h
      injection h with h1 h2
      obtain ⟨rfl, hmem⟩ := splitElem_singleton h2
      subst h1
      exact ⟨rfl, by simp, hmem⟩
    · rw [splitElem_cons_eq, if_neg ha] at h
      cases hs : splitElem b as with
      | nil => exact absurd hs (splitElem_ne_nil b as)
      | cons hd tl =>
        rw [hs] at h
        injection h with h1 h2
        have h3 : splitElem b as = [hd, t1] := by
          rw [hs]
          subst h2
          rfl
        obtain ⟨rfl, hm0, hm1⟩ := ih h3
        refine ⟨?_, ?_, hm1⟩
        · rw [← h1]
          rfl
        · rw [← h1]
          exact not_mem_cons_of_ne_of_not_mem ha hm0

theorem isSuffixOf_append_self (x suf : List Nat) : suf.isSuffixOf (x ++ suf) = true := by
  show suf.reverse.isPrefixOf (x ++ suf).reverse = true
  rw [List.reverse_append]
  exact isPrefixOf_self_append _ _

theorem trimSuffix_append (x suf : List Nat) : trimSuffix suf (x ++ suf) = x := by
  unfold trimSuffix
  rw [if_pos (isSuffixOf_append_self x suf)]
  have hl : (x ++ suf).length - suf.length = x.length := by simp
  rw [hl, List.take_left]

theorem suffix_decomp {suf s : List Nat} (h : suf.isSuffixOf s = true) :
    ∃ x, s = x ++ suf := by
  have h1 : suf.reverse.isPrefixOf s.reverse = true := h
  have h2 := eq_append_drop_of_isPrefixOf h1
  refine ⟨(s.reverse.drop suf.reverse.length).reverse, ?_⟩
  calc s = s.reverse.reverse := by simp
  _ = (suf.reverse ++ s.reverse.drop suf.reverse.length).reverse := by rw [← h2]
  _ = (s.reverse.drop suf.reverse.length).reverse ++ suf := by
        rw [List.reverse_append]; simp

theorem trimSuffix_of_no_crlf {s : List Nat} (h : listIndex crlf s = none) :
    trimSuffix crlf s = s := by
  unfold trimSuffix
  by_cases hc : crlf.isSuffixOf s = true
  · obtain ⟨x, rfl⟩ := suffix_decomp hc
    have h2 := listIndex_isSome_of_append crlf x []
    rw [List.append_nil] at h2
    rw [h] at h2
    simp at h2
  · rw [if_neg hc]

theorem trimSuffix_decomp {s : List Nat} (h : crlf.isSuffixOf s = true) :
    s = trimSuffix crlf s ++ crlf := by
  obtain ⟨x, rfl⟩ := suffix_decomp h
  rw [trimSuffix_append]

/-! ### The store (`internal/cache/item.go`, `internal/cache/map.go`) -/

/-- A cached value with an optional absolute expiration instant
(`item` in `internal/cache/item.go`); `expires` is a UnixNano count and
`0` means the item never expires. -/
structure CacheItem where
  data : List Nat
  expires : Int
  deriving DecidableEq

/-- Method `item.isExpired`, evaluated at clock reading `now`. -/
def CacheItem.isExpired (i : CacheItem) (now : Int) : Bool :=
  if i.expires = 0 then false else decide (now > i.expires)

/-- The in-memory key-value table (`CacheMap` in `internal/cache/map.go`).
The Go `map[string]item` is modelled as an association list whose keys are
pairwise distinct for every reachable state. -/
structure CacheMap where
  items : List (List Nat × CacheItem)
  deriving DecidableEq

/-- Map read `cm.items[key]`. -/
def mapGet (k : List Nat) : List (List Nat × CacheItem) → Option CacheItem
  | [] => none
  | (k', it) :: tl => if k' = k then some it else mapGet k tl

/-- Map write `cm.items[key] = it` (replaces any existing entry). -/
def mapInsert (k : List Nat) (it : CacheItem) :
    List (List Nat × CacheItem) → List (List Nat × CacheItem)
  | [] => [(k, it)]
  | (k', it') :: tl => if k' = k then (k, it) :: tl else (k', it') :: mapInsert k it tl

/-- Map delete `delete(cm.items, key)`. -/
def mapErase (k : List Nat) : List (List Nat × CacheItem) → List (List Nat × CacheItem)
  | [] => []
  | (k', it') :: tl => if k' = k then tl else (k', it') :: mapErase k tl

/-- Method `CacheMap.Set`: stores the value with no expiration. -/
def cacheSet (m : CacheMap) (key value : List Nat) : CacheMap :=
  ⟨mapInsert key ⟨value, 0⟩ m.items⟩

/-- Method `CacheMap.SetEx` at clock reading `now`: absolute expiry `now + expires`
when `expires > 0`, otherwise the zero (never-expiring) instant. -/
def cacheSetEx (m : CacheMap) (now : Int) (key value : List Nat) (expires : Int) : CacheMap :=
  let expirationInNano : Int := if expires > 0 then now + expires else 0
  ⟨mapInsert key ⟨value, expirationInNano⟩ m.items⟩

/-- Method `CacheMap.Get` at clock reading `now`: the `(value, ok)` pair Go returns.
A missing key reads the zero `item`, exactly as in Go. -/
def cacheGet (m : CacheMap) (now : Int) (key : List Nat) : List Nat × Bool :=
  let read : CacheItem × Bool :=
    match mapGet key m.items with
    | some it => (it, true)
    | none => (⟨[], 0⟩, false)
  if read.1.isExpired now then ([], false) else (read.1.data, read.2)

/-- Method `CacheMap.Get` as a state transformer: the method body reads `cm.items`
under the read lock and performs no assignment, so the post-state equals the
pre-state. -/
def cacheGetS (m : CacheMap) (now : Int) (key : List Nat) : CacheMap × (List Nat × Bool) :=
  (m, cacheGet m now key)

/-- Method `CacheMap.Delete`. -/
def cacheDelete (m : CacheMap) (key : List Nat) : CacheMap :=
  ⟨mapErase key m.items⟩

/-- Method `CacheMap.Purge`: replaces the backing map with a fresh empty one. -/
def cachePurge (_m : CacheMap) : CacheMap := ⟨[]⟩

/-- Method `CacheMap.Length`. -/
def cacheLength (m : CacheMap) : Nat := m.items.length

/-- Method `CacheMap.Keys`: the snapshot of all keys. -/
def cacheKeys (m : CacheMap) : List (List Nat) := m.items.map Prod.fst

/-- Method `CacheMap.deleteExpired` (one cleanup tick) at clock reading `now`. -/
def deleteExpired (m : CacheMap) (now : Int) : CacheMap :=
  ⟨m.items.filter (fun p => ! p.2.isExpired now)⟩

/-- Cache states reachable through the exported API from `NewCacheMap()`. -/
inductive ReachableCache : CacheMap → Prop
  | new : ReachableCache ⟨[]⟩
  | set (m : CacheMap) (k v : List Nat) :
      ReachableCache m → ReachableCache (cacheSet m k v)
  | setEx (m : CacheMap) (now : Int) (k v : List Nat) (ttl : Int) :
      ReachableCache m → ReachableCache (cacheSetEx m now k v ttl)
  | delete (m : CacheMap) (k : List Nat) :
      ReachableCache m → ReachableCache (cacheDelete m k)
  | purge (m : CacheMap) : ReachableCache m → ReachableCache (cachePurge m)
  | sweep (m : CacheMap) (now : Int) :
      ReachableCache m → ReachableCache (deleteExpired m now)

/-! ### The wire codec (`internal/nativesrv/messages.go`) -/

/-- The closed taxonomy of parse errors declared in `messages.go`. -/
inductive MsgError
  | malformedRequest
  | malformedResponse
  | unknownProtocol
  | invalidKey
  | invalidValue
  deriving DecidableEq

/-- A request message (`request` in `messages.go`); `none` models a nil
byte slice. -/
structure Request where
  command : Option (List Nat)
  key : Option (List Nat)
  value : Option (List Nat)
  deriving DecidableEq

/-- The protocol token `"RCSP/1.0"`. -/
def rcspBytes : List Nat := bytesOfString "RCSP/1.0"

/-- The field name `"KEY"`. -/
def keyBytes : List Nat := bytesOfString "KEY"

/-- The field name `"VALUE"`. -/
def valueBytes : List Nat := bytesOfString "VALUE"

/-- Method `request.write` (`messages.go` lines 176–194): the exact byte string the
method writes to the connection. -/
def Request.write (r : Request) : List Nat :=
  bytesOfString "RCSP/1.0"
    ++ (match r.command with
        | some c => 32 :: c ++ crlf
        | none => [])
    ++ (match r.key with
        | some k => bytesOfString "KEY: " ++ k ++ crlf
        | none => [])
    ++ (match r.value with
        | some v => bytesOfString "VALUE: " ++ v ++ crlf
        | none => [])

/-- The key-line step of `parseRequest` (`messages.go` lines 221–230): `e` is
the current value of `encounteredErr`. -/
def parseKeyStep (line : List Nat) (r : Request) (e : Option MsgError) :
    Request × Option MsgError :=
  match splitN colonSp 2 line with
  | [a, b] =>
    if a = keyBytes then ({ r with key := some b }, e)
    else (r, some MsgError.malformedRequest)
  | _ => (r, some MsgError.invalidKey)

/-- The value-line step of `parseRequest` (`messages.go` lines 231–239): a
line that is not a well-formed `VALUE` field overwrites `encounteredErr`
with `ErrMalformedRequest`. -/
def parseValueStep (line : List Nat) (r : Request) (e : Option MsgError) :
    Request × Option MsgError :=
  match splitN colonSp 2 line with
  | [a, b] =>
    if a = valueBytes then ({ r with value := some b }, e)
    else (r, some MsgError.malformedRequest)
  | _ => (r, some MsgError.malformedRequest)

/-- The guarded trailing-empty-line drop of `parseRequest` (`messages.go`
lines 203–206). -/
def stripLastEmpty (ls : List (List Nat)) : List (List Nat) :=
  if ls.getLast? = some [] then ls.dropLast else ls

/-- The unconditional `msgLines[linesCount-1] = bytes.TrimSuffix(...)` write of
`parseRequest`; `none` models the out-of-range index when `linesCount = 0`. -/
def trimLastLine (ls : List (List Nat)) : Option (List (List Nat)) :=
  match ls.getLast? with
  | none => none
  | some last => some (ls.dropLast ++ [trimSuffix crlf last])

/-- The full line-assembly prefix of `parseRequest` (`messages.go` lines
201–207). -/
def requestLines (msg : List Nat) : Option (List (List Nat)) :=
  trimLastLine (stripLastEmpty (splitN crlf 3 msg))

/-- The line-parsing suffix of `parseRequest` (`messages.go` lines 208–241):
header check, then the key line (when present), then the value line (when
present).  `none` models the out-of-range read of `msgLines[0]`. -/
def parseFromLines : List (List Nat) → Option (Request × Option MsgError)
  | [] => none
  | line0 :: restLines =>
    match splitElem 32 line0 with
    | [t0, t1] =>
      if t0 = rcspBytes then
        let r0 : Request := ⟨some t1, none, none⟩
        match restLines with
        | [] => some (r0, none)
        | line1 :: rest2 =>
          let p1 := parseKeyStep line1 r0 none
          match rest2 with
          | [] => some p1
          | line2 :: _ => some (parseValueStep line2 p1.1 p1.2)
      else some (⟨none, none, none⟩, some MsgError.unknownProtocol)
    | _ => some (⟨none, none, none⟩, some MsgError.unknownProtocol)

/-- Function `parseRequest` (`messages.go` lines 196–242).  The result is `none`
exactly when the Go code would index a slice out of range (a run-time panic);
the theorems below show this never happens. -/
def parseRequest (msg : List Nat) : Option (Request × Option MsgError) :=
  if msg = [] then some (⟨none, none, none⟩, some MsgError.malformedRequest)
  else
    match requestLines msg with
    | none => none
    | some msgLines => parseFromLines msgLines

/-! ### Response construction (`internal/nativesrv/native.go`) -/

/-- A response message (`response` in `messages.go`). -/
structure Response where
  command : Option (List Nat)
  ok : Bool
  message : Option (List Nat)
  key : Option (List Nat)
  value : Option (List Nat)
  deriving DecidableEq

/-- Go's `strconv.Itoa` for the non-negative counts the server prints. -/
def itoa (n : Nat) : List Nat := bytesOfString (toString n)

/-- Method `Server.handleLength` (`native.go` lines 327–334): the response built
from the store. -/
def handleLength (m : CacheMap) : Response :=
  { command := some (bytesOfString "LENGTH")
    ok := true
    message := none
    key := none
    value := some (itoa (cacheLength m)) }

/-- Method `Server.handleKeys` (`native.go` lines 336–348): the response built from
the store; Go's `strings.Join(keys, ",")` is `List.intercalate [44]`. -/
def handleKeys (m : CacheMap) : Response :=
  let keys := cacheKeys m
  if keys.length ≠ 0 then
    { command := some (bytesOfString "KEYS")
      ok := true
      message := none
      key := none
      value := some (List.intercalate [44] keys) }
  else
    { command := some (bytesOfString "KEYS")
      ok := false
      message := some (bytesOfString "No keys")
      key := none
      value := none }

/-! ### Graceful shutdown (`internal/nativesrv/native.go` lines 117–152) -/

/-- Constant `shutdownPollIntervalMax`: 500ms in nanoseconds. -/
def shutdownPollIntervalMax : Nat := 500000000

/-- The poll-interval base sequence of `Server.Shutdown`
(`pollIntervalBase`): 1ms at first, then doubled and clamped each round. -/
def pollBase : Nat → Nat
  | 0 => 1000000
  | n + 1 => min (2 * pollBase n) shutdownPollIntervalMax

/-- The interval handed to the timer at round `n`: the base plus jitter,
where `jitter n` stands for Go's `rand.Intn(int(pollIntervalBase/10))`
(hence `jitter n < pollBase n / 10`). -/
def pollInterval (jitter : Nat → Nat) (n : Nat) : Nat :=
  pollBase n + jitter n

/-- Abstract non-nil Go error values observable from `Server.Shutdown`. -/
inductive GoErr
  | listenerErr
  | ctxErr
  deriving DecidableEq

/-- The poll loop of `Server.Shutdown`: at round `n` the loop first checks the
live-connection count (`conns n`) and returns the saved listener-close error
when it is zero; otherwise it selects on context cancellation (`ctxDone n`)
versus the timer.  `none` means the loop has not returned within `fuel`
rounds. -/
def shutdownLoop (closeErr : Option GoErr) (conns : Nat → Nat) (ctxDone : Nat → Bool) :
    Nat → Nat → Option (Option GoErr)
  | _, 0 => none
  | n, fuel + 1 =>
    if conns n = 0 then some closeErr
    else if ctxDone n then some (some GoErr.ctxErr)
    else shutdownLoop closeErr conns ctxDone (n + 1) fuel

/-- The mutable server state `Server.Shutdown` touches. -/
structure ServerState where
  inShutdown : Bool
  listenerClosed : Bool
  deriving DecidableEq

/-- Method `Server.Shutdown`: sets the shutting-down flag, closes the listener
(saving its close result `closeErr`), then runs the poll loop; `conns n` and
`ctxDone n` are the observations made at poll round `n`. -/
def shutdownModel (st : ServerState) (closeErr : Option GoErr) (conns : Nat → Nat)
    (ctxDone : Nat → Bool) (fuel : Nat) : ServerState × Option (Option GoErr) :=
  ({ st with inShutdown := true, listenerClosed := true },
    shutdownLoop closeErr conns ctxDone 0 fuel)

/-! ### Store lemmas -/

theorem mapGet_insert (k : List Nat) (it : CacheItem) (l : List (List Nat × CacheItem)) :
    mapGet k (mapInsert k it l) = some it := by
  induction l with
  | nil => simp [mapInsert, mapGet]
  | cons p tl ih =>
    obtain ⟨k', it'⟩ := p
    by_cases hk : k' = k
    · simp [mapInsert, hk, mapGet]
    · simp [mapInsert, hk, mapGet, ih]

theorem mem_keys_of_mapGet {k : List Nat} {it : CacheItem} {l : List (List Nat × CacheItem)}
    (h : mapGet k l = some it) : k ∈ l.map Prod.fst := by
  induction l with
  | nil => simp [mapGet] at h
  | cons p tl ih =>
    obtain ⟨k', it'⟩ := p
    by_cases hk : k' = k
    · simp [hk]
    · simp only [mapGet, hk, Bool.false_eq_true, if_false] at h
      simp [ih h]

theorem mem_keys_mapInsert {x k : List Nat} {it : CacheItem} {l : List (List Nat × CacheItem)}
    (h : x ∈ (mapInsert k it l).map Prod.fst) : x ∈ l.map Prod.fst ∨ x = k := by
  induction l with
  | nil =>
    have h1 : x ∈ [k] := by simpa [mapInsert] using h
    exact Or.inr (List.mem_singleton.mp h1)
  | cons p tl ih =>
    obtain ⟨k', it'⟩ := p
    by_cases hk : k' = k
    · have h1 : x ∈ k :: tl.map Prod.fst := by simpa [mapInsert, hk] using h
      rcases List.mem_cons.mp h1 with h2 | h2
      · exact Or.inr h2
      · exact Or.inl (by simp only [List.map_cons]; exact List.mem_cons_of_mem k' h2)
    · have h1 : x ∈ k' :: (mapInsert k it tl).map Prod.fst := by
        simpa [mapInsert, hk] using h
      rcases List.mem_cons.mp h1 with h2 | h2
      · exact Or.inl (by simp only [List.map_cons]; exact h2 ▸ List.mem_cons_self k' _)
      · rcases ih h2 with h3 | h3
        · exact Or.inl (by simp only [List.map_cons]; exact List.mem_cons_of_mem k' h3)
        · exact Or.inr h3

theorem nodup_mapInsert (k : List Nat) (it : CacheItem) {l : List (List Nat × CacheItem)}
    (h : (l.map Prod.fst).Nodup) : ((mapInsert k it l).map Prod.fst).Nodup := by
  induction l with
  | nil => simp [mapInsert]
  | cons p tl ih =>
    obtain ⟨k', it'⟩ := p
    simp only [List.map_cons, List.nodup_cons] at h
    by_cases hk : k' = k
    · subst hk
      simpa [mapInsert] using h
    · simp only [mapInsert, hk, Bool.false_eq_true, if_false, List.map_cons, List.nodup_cons]
      refine ⟨?_, ih h.2⟩
      intro hc
      rcases mem_keys_mapInsert hc with h2 | h2
      · exact h.1 h2
      · exact hk h2

theorem keys_mapErase_sublist (k : List Nat) (l : List (List Nat × CacheItem)) :
    ((mapErase k l).map Prod.fst).Sublist (l.map Prod.fst) := by
  induction l with
  | nil => simp [mapErase]
  | cons p tl ih =>
    obtain ⟨k', it'⟩ := p
    by_cases hk : k' = k
    · have he : mapErase k ((k', it') :: tl) = tl := by simp [mapErase, hk]
      rw [he, List.map_cons]
      exact List.sublist_cons_self k' (tl.map Prod.fst)
    · simp only [mapErase, hk, Bool.false_eq_true, if_false, List.map_cons]
      exact ih.cons₂ k'

theorem reachable_nodup {m : CacheMap} (h : ReachableCache m) : (cacheKeys m).Nodup := by
  induction h with
  | new => simp [cacheKeys]
  | set m k v _ ih => exact nodup_mapInsert k ⟨v, 0⟩ ih
  | setEx m now k v ttl _ ih => exact nodup_mapInsert k _ ih
  | delete m k _ ih => exact (keys_mapErase_sublist k m.items).nodup ih
  | purge m _ _ => simp [cacheKeys, cachePurge]
  | sweep m now _ ih =>
    have hs : ((deleteExpired m now).items.map Prod.fst).Sublist (m.items.map Prod.fst) :=
      (List.filter_sublist m.items).map Prod.fst
    exact hs.nodup ih

/-! ### Claims about the store -/

/-- C1: for every key `k` and every non-empty value `v`, calling `Set(k, v)`
on the store and then `Get(k)` (at any clock reading) returns `(v, true)`. -/
theorem c1_set_then_get (m : CacheMap) (now : Int) (k v : List Nat) (hv : v ≠ []) :
    cacheGet (cacheSet m k v) now k = (v, true) := by
  unfold cacheGet cacheSet
  rw [mapGet_insert]
  simp [CacheItem.isExpired]

theorem c1_set_then_get_witness :
    ([49] : List Nat) ≠ [] ∧
      cacheGet (cacheSet ⟨[]⟩ [107] [49]) 5 [107] = ([49], true) :=
  ⟨by decide, c1_set_then_get ⟨[]⟩ 5 [107] [49] (by decide)⟩

/-- C3: after `SetEx(k, v, ttl)` issued at a physical clock reading
`now ≥ 0`, once the clock has passed the stored expiry instant `now + ttl`
the `Get(k)` result reports `found = false` even though no sweep has run;
and with `ttl ≤ 0` the stored item never expires: `Get(k)` returns
`(v, true)` at every clock reading. -/
theorem c3_setEx_ttl (m : CacheMap) (now now' ttl : Int) (k v : List Nat)
    (hnow : 0 ≤ now) :
    (0 < ttl → now + ttl < now' →
      (cacheGet (cacheSetEx m now k v ttl) now' k).2 = false)
    ∧ (ttl ≤ 0 → cacheGet (cacheSetEx m now k v ttl) now' k = (v, true)) := by
  constructor
  · intro httl hlate
    unfold cacheGet cacheSetEx
    simp only [if_pos httl]
    rw [mapGet_insert]
    have hne : now + ttl ≠ 0 := by omega
    have hexp : CacheItem.isExpired ⟨v, now + ttl⟩ now' = true := by
      simp [CacheItem.isExpired, hne]
      omega
    simp [hexp]
  · intro httl
    unfold cacheGet cacheSetEx
    have : ¬ ttl > 0 := by omega
    simp only [if_neg this]
    rw [mapGet_insert]
    simp [CacheItem.isExpired]

theorem c3_setEx_ttl_witness :
    ((0 : Int) ≤ 1) ∧
      ((0 : Int) < 2 → (1 : Int) + 2 < 9 →
        (cacheGet (cacheSetEx ⟨[]⟩ 1 [107] [49] 2) 9 [107]).2 = false)
    ∧ ((2 : Int) ≤ 0 → cacheGet (cacheSetEx ⟨[]⟩ 1 [107] [49] 2) 9 [107] = ([49], true)) :=
  ⟨by decide, c3_setEx_ttl ⟨[]⟩ 1 9 2 [107] [49] (by decide)⟩

/-- C8: after `Purge()` on any store state, `Length()` returns `0` and
`Keys()` returns the empty sequence. -/
theorem c8_purge_empties (m : CacheMap) :
    cacheLength (cachePurge m) = 0 ∧ cacheKeys (cachePurge m) = [] :=
  ⟨rfl, rfl⟩

/-- C9: for every key and store state, `Get(key)` leaves the item map
unchanged, and it reports `found = false` exactly when the key is absent or
its item is expired — without removing or modifying any entry. -/
theorem c9_get_no_mutation (m : CacheMap) (now : Int) (k : List Nat) :
    (cacheGetS m now k).1 = m ∧
    ((cacheGetS m now k).2.2 = false ↔
      mapGet k m.items = none ∨
        ∃ it, mapGet k m.items = some it ∧ it.isExpired now = true) := by
  refine ⟨rfl, ?_⟩
  show (cacheGet m now k).2 = false ↔ _
  unfold cacheGet
  cases hg : mapGet k m.items with
  | none =>
    have hz : CacheItem.isExpired ⟨[], 0⟩ now = false := by simp [CacheItem.isExpired]
    simp [hg, hz]
  | some it =>
    cases hexp : it.isExpired now with
    | true => simp [hg, hexp]
    | false => simp [hg, hexp]

/-- C10: in any reachable store state the sequence returned by `Keys()` has
exactly `Length()` elements and its keys are pairwise distinct; in
particular an expired-but-unswept item is still listed by `Keys()` (and so
counted by `Length()`) even though `Get()` reports it absent. -/
theorem c10_keys_length_distinct (m : CacheMap) (h : ReachableCache m) :
    (cacheKeys m).length = cacheLength m ∧ (cacheKeys m).Nodup ∧
    (∀ (now : Int) (k : List Nat) (it : CacheItem),
      mapGet k m.items = some it → it.isExpired now = true →
        (cacheGet m now k).2 = false ∧ k ∈ cacheKeys m) := by
  refine ⟨by simp [cacheKeys, cacheLength], reachable_nodup h, ?_⟩
  intro now k it hg hexp
  constructor
  · unfold cacheGet
    simp [hg, hexp]
  · exact mem_keys_of_mapGet hg

theorem c10_keys_length_distinct_witness :
    (cacheKeys (cacheSetEx ⟨[]⟩ 1 [107] [49] 2)).length
        = cacheLength (cacheSetEx ⟨[]⟩ 1 [107] [49] 2) ∧
      (cacheKeys (cacheSetEx ⟨[]⟩ 1 [107] [49] 2)).Nodup ∧
      (∀ (now : Int) (k : List Nat) (it : CacheItem),
        mapGet k (cacheSetEx ⟨[]⟩ 1 [107] [49] 2).items = some it →
          it.isExpired now = true →
          (cacheGet (cacheSetEx ⟨[]⟩ 1 [107] [49] 2) now k).2 = false ∧
            k ∈ cacheKeys (cacheSetEx ⟨[]⟩ 1 [107] [49] 2)) :=
  c10_keys_length_distinct (cacheSetEx ⟨[]⟩ 1 [107] [49] 2)
    (ReachableCache.setEx ⟨[]⟩ 1 [107] [49] 2 ReachableCache.new)

/-- C6: a `KEYS` request on a store holding at least one key is answered
`ok = true` with the comma-joined key list; on an empty store it is answered
`ok = false` with message `"No keys"`; while `LENGTH` on an empty store is
answered `ok = true` with value `"0"`. -/
theorem c6_keys_vs_length (m : CacheMap) :
    (0 < cacheLength m →
      handleKeys m =
        { command := some (bytesOfString "KEYS"), ok := true, message := none,
          key := none, value := some (List.intercalate [44] (cacheKeys m)) })
    ∧ (cacheLength m = 0 →
      handleKeys m =
        { command := some (bytesOfString "KEYS"), ok := false,
          message := some (bytesOfString "No keys"), key := none, value := none })
    ∧ (cacheLength m = 0 →
      handleLength m =
        { command := some (bytesOfString "LENGTH"), ok := true, message := none,
          key := none, value := some (bytesOfString "0") }) := by
  refine ⟨?_, ?_, ?_⟩
  · intro h
    have hne : (cacheKeys m).length ≠ 0 := by
      simp only [cacheKeys, List.length_map]
      simp only [cacheLength] at h
      omega
    simp [handleKeys, hne]
  · intro h
    have hz : (cacheKeys m).length = 0 := by
      simp only [cacheKeys, List.length_map]
      simpa [cacheLength] using h
    simp [handleKeys, hz]
  · intro h
    have hv : itoa (cacheLength m) = bytesOfString "0" := by
      rw [h]
      decide
    simp [handleLength, hv]

theorem c6_keys_vs_length_witness :
    0 < cacheLength ⟨[([107], ⟨[49], 0⟩)]⟩ ∧
      handleKeys ⟨[([107], ⟨[49], 0⟩)]⟩ =
        { command := some (bytesOfString "KEYS"), ok := true, message := none,
          key := none,
          value := some (List.intercalate [44] (cacheKeys ⟨[([107], ⟨[49], 0⟩)]⟩)) } ∧
      handleKeys ⟨[]⟩ =
        { command := some (bytesOfString "KEYS"), ok := false,
          message := some (bytesOfString "No keys"), key := none, value := none } ∧
      handleLength ⟨[]⟩ =
        { command := some (bytesOfString "LENGTH"), ok := true, message := none,
          key := none, value := some (bytesOfString "0") } :=
  ⟨by decide,
    (c6_keys_vs_length ⟨[([107], ⟨[49], 0⟩)]⟩).1 (by decide),
    (c6_keys_vs_length ⟨[]⟩).2.1 (by decide),
    (c6_keys_vs_length ⟨[]⟩).2.2 (by decide)⟩

/-! ### Shutdown lemmas -/

theorem pollBase_closed (n : Nat) :
    pollBase n = min (2 ^ n * 1000000) shutdownPollIntervalMax := by
  induction n with
  | zero => simp [pollBase, shutdownPollIntervalMax]
  | succ n ih =>
    have h2 : 2 ^ (n + 1) * 1000000 = 2 * (2 ^ n * 1000000) := by ring
    rw [pollBase, ih, h2]
    unfold shutdownPollIntervalMax
    omega

theorem pollBase_lower (n : Nat) : 1000000 ≤ pollBase n := by
  rw [pollBase_closed]
  have h1 : 1000000 ≤ 2 ^ n * 1000000 := by
    have := Nat.one_le_two_pow (n := n)
    nlinarith
  unfold shutdownPollIntervalMax
  omega

theorem shutdownLoop_drain_from (closeErr : Option GoErr) (conns : Nat → Nat)
    (ctxDone : Nat → Bool) (N : Nat) (hzero : conns N = 0) :
    ∀ fuel i, i ≤ N → (∀ m, i ≤ m → m < N → conns m ≠ 0 ∧ ctxDone m = false) →
      N - i < fuel → shutdownLoop closeErr conns ctxDone i fuel = some closeErr := by
  intro fuel
  induction fuel with
  | zero => intro i _ _ hf; omega
  | succ fuel ih =>
    intro i hi hbef hf
    by_cases h0 : conns i = 0
    · simp [shutdownLoop, h0]
    · have hlt : i < N := by
        rcases Nat.lt_or_ge i N with h | h
        · exact h
        · have : i = N := by omega
          exact absurd (this ▸ hzero) h0
      have hbi := hbef i (Nat.le_refl i) hlt
      simp only [shutdownLoop, h0, Bool.false_eq_true, if_false, hbi.2]
      exact ih (i + 1) hlt (fun m hm1 hm2 => hbef m (by omega) hm2) (by omega)

theorem shutdownLoop_ctx_from (closeErr : Option GoErr) (conns : Nat → Nat)
    (ctxDone : Nat → Bool) (N : Nat) (hdone : ctxDone N = true) (hconn : conns N ≠ 0) :
    ∀ fuel i, i ≤ N → (∀ m, i ≤ m → m < N → conns m ≠ 0 ∧ ctxDone m = false) →
      N - i < fuel →
      shutdownLoop closeErr conns ctxDone i fuel = some (some GoErr.ctxErr) := by
  intro fuel
  induction fuel with
  | zero => intro i _ _ hf; omega
  | succ fuel ih =>
    intro i hi hbef hf
    by_cases hiN : i = N
    · subst hiN
      simp [shutdownLoop, hconn, hdone]
    · have hlt : i < N := by omega
      have hbi := hbef i (Nat.le_refl i) hlt
      simp only [shutdownLoop, hbi.1, Bool.false_eq_true, if_false, hbi.2]
      exact ih (i + 1) hlt (fun m hm1 hm2 => hbef m (by omega) hm2) (by omega)

/-- C7 (amended): `Shutdown(ctx)` sets the shutting-down flag and closes the
listener, polls the live-connection count with exponential backoff — a base
interval starting at 1 ms, doubling each round, clamped at 500 ms, plus up to
10% jitter — and, at the first poll round `N` at which the count is zero,
returns the saved listener-close error (nil when the listener closed
cleanly); if the context is done first it returns the context's error. -/
theorem c7_shutdown_backoff (st : ServerState) (closeErr : Option GoErr)
    (conns : Nat → Nat) (ctxDone : Nat → Bool) (jitter : Nat → Nat)
    (fuel N : Nat) (hj : ∀ n, jitter n < pollBase n / 10) :
    (shutdownModel st closeErr conns ctxDone fuel).1.inShutdown = true ∧
    (shutdownModel st closeErr conns ctxDone fuel).1.listenerClosed = true ∧
    pollBase 0 = 1000000 ∧
    (∀ n, pollBase n = min (2 ^ n * 1000000) shutdownPollIntervalMax) ∧
    (∀ n, pollBase n ≤ pollInterval jitter n ∧
          pollInterval jitter n < pollBase n + pollBase n / 10) ∧
    (conns N = 0 → (∀ m, m < N → conns m ≠ 0 ∧ ctxDone m = false) → N < fuel →
      (shutdownModel st closeErr conns ctxDone fuel).2 = some closeErr) ∧
    (ctxDone N = true → conns N ≠ 0 → (∀ m, m < N → conns m ≠ 0 ∧ ctxDone m = false) →
      N < fuel →
      (shutdownModel st closeErr conns ctxDone fuel).2 = some (some GoErr.ctxErr)) := by
  refine ⟨rfl, rfl, rfl, pollBase_closed, ?_, ?_, ?_⟩
  · intro n
    have := hj n
    unfold pollInterval
    omega
  · intro hzero hbef hfuel
    exact shutdownLoop_drain_from closeErr conns ctxDone N hzero fuel 0
      (by omega) (fun m _ h2 => hbef m h2) (by omega)
  · intro hdone hconn hbef hfuel
    exact shutdownLoop_ctx_from closeErr conns ctxDone N hdone hconn fuel 0
      (by omega) (fun m _ h2 => hbef m h2) (by omega)

theorem c7_shutdown_backoff_witness :
    ((fun _ : Nat => 0) 0 = 0) ∧
      (shutdownModel ⟨false, false⟩ none (fun _ => 0) (fun _ => false) 1).2 = some none ∧
      (shutdownModel ⟨false, false⟩ none (fun _ => 0) (fun _ => false) 1).1.inShutdown = true :=
  ⟨rfl,
    (c7_shutdown_backoff ⟨false, false⟩ none (fun _ => 0) (fun _ => false)
        (fun _ => 0) 1 0
        (fun n => by have := pollBase_lower n; show 0 < pollBase n / 10; omega)).2.2.2.2.2.1
      rfl (fun m hm => absurd hm (Nat.not_lt_zero m)) (by omega),
    (c7_shutdown_backoff ⟨false, false⟩ none (fun _ => 0) (fun _ => false)
        (fun _ => 0) 1 0
        (fun n => by have := pollBase_lower n; show 0 < pollBase n / 10; omega)).1⟩

/-- C7, original statement refuted: when the saved listener-close error is
non-nil, `Shutdown` returns that error — not nil — even though the
live-connection count reached zero immediately. -/
theorem c7_counterexample :
    (shutdownModel ⟨false, false⟩ (some GoErr.listenerErr) (fun _ => 0) (fun _ => false) 1).2
        = some (some GoErr.listenerErr) ∧
      some (some GoErr.listenerErr) ≠ some (none : Option GoErr) :=
  ⟨rfl, by decide⟩

/-! ### Codec computation lemmas -/

theorem splitN_two (sep s : List Nat) :
    splitN sep 2 s =
      match listIndex sep s with
      | none => [s]
      | some i => [s.take i, s.drop (i + sep.length)] := rfl

theorem splitN_three (sep s : List Nat) :
    splitN sep 3 s =
      match listIndex sep s with
      | none => [s]
      | some i => s.take i :: splitN sep 2 (s.drop (i + sep.length)) := rfl

theorem splitN_two_some {sep s : List Nat} {i : Nat} (h : listIndex sep s = some i) :
    splitN sep 2 s = [s.take i, s.drop (i + sep.length)] := by
  rw [splitN_two, h]

theorem splitN_two_none {sep s : List Nat} (h : listIndex sep s = none) :
    splitN sep 2 s = [s] := by
  rw [splitN_two, h]

theorem listIndex_crlf_append_none {x y : List Nat} (hx : listIndex crlf x = none)
    (hy : listIndex crlf y = none)
    (hb : ∀ z, x.getLast? = some z → z = 13 → y.head? ≠ some 10) :
    listIndex crlf (x ++ y) = none := by
  induction x with
  | nil => simpa using hy
  | cons a x' ih =>
    have hx' : listIndex crlf x' = none := listIndex_crlf_cons hx
    have hnp : crlf.isPrefixOf (a :: (x' ++ y)) = false := by
      cases x' with
      | nil =>
        cases y with
        | nil => exact crlf_isPrefixOf_single
        | cons b y' =>
          refine crlf_isPrefixOf_two_false _ ?_
          rintro ⟨ha, hbv⟩
          exact (hb a rfl ha) (by simp [hbv])
      | cons cdot x'' =>
        refine crlf_isPrefixOf_two_false _ ?_
        rintro ⟨ha, hcv⟩
        have := crlf_isPrefixOf_two_true x'' ha hcv
        simp [listIndex, this] at hx
    show listIndex crlf (a :: (x' ++ y)) = none
    rw [listIndex, if_neg (by rw [hnp]; simp)]
    have hrec : listIndex crlf (x' ++ y) = none := by
      refine ih hx' ?_
      intro z hz hzv
      refine hb z ?_ hzv
      cases x' with
      | nil => simp at hz
      | cons w x'' => rw [List.getLast?_cons_cons]; exact hz
    rw [hrec]
    rfl

theorem stripLastEmpty_single_ne {a : List Nat} (ha : a ≠ []) :
    stripLastEmpty [a] = [a] := by
  simp [stripLastEmpty, ha]

theorem stripLastEmpty_pair_empty (a : List Nat) : stripLastEmpty [a, []] = [a] := by
  simp [stripLastEmpty]

theorem stripLastEmpty_pair_ne (a : List Nat) {b : List Nat} (hb : b ≠ []) :
    stripLastEmpty [a, b] = [a, b] := by
  simp [stripLastEmpty, hb]

theorem stripLastEmpty_triple_empty (a b : List Nat) :
    stripLastEmpty [a, b, []] = [a, b] := by
  simp [stripLastEmpty]

theorem stripLastEmpty_triple_ne (a b : List Nat) {r : List Nat} (hr : r ≠ []) :
    stripLastEmpty [a, b, r] = [a, b, r] := by
  simp [stripLastEmpty, hr]

theorem trimLastLine_single (a : List Nat) :
    trimLastLine [a] = some [trimSuffix crlf a] := by
  simp [trimLastLine]

theorem trimLastLine_pair (a b : List Nat) :
    trimLastLine [a, b] = some [a, trimSuffix crlf b] := by
  simp [trimLastLine]

theorem trimLastLine_triple (a b r : List Nat) :
    trimLastLine [a, b, r] = some [a, b, trimSuffix crlf r] := by
  simp [trimLastLine]

theorem splitN_crlf_two_empty : splitN crlf 2 [] = [[]] := by
  rw [splitN_two_none (listIndex_nil_of_ne (by decide))]

theorem splitN_crlf_two_boundary {b : List Nat} (r : List Nat)
    (hb : listIndex crlf b = none) : splitN crlf 2 (b ++ crlf ++ r) = [b, r] := by
  rw [splitN_two_some (listIndex_crlf_boundary b r hb)]
  have ht : (b ++ crlf ++ r).take b.length = b := by
    rw [List.append_assoc]
    exact List.take_left b (crlf ++ r)
  have hd : (b ++ crlf ++ r).drop (b.length + crlf.length) = r := by
    have he : b.length + crlf.length = (b ++ crlf).length := by simp
    rw [he]
    exact List.drop_left (b ++ crlf) r
  rw [ht, hd]

theorem requestLines_bare_one {a : List Nat} (ha : listIndex crlf a = none) (hne : a ≠ []) :
    requestLines a = some [a] := by
  unfold requestLines
  rw [show splitN crlf 3 a = [a] from splitN_of_none 1 ha]
  rw [stripLastEmpty_single_ne hne, trimLastLine_single, trimSuffix_of_no_crlf ha]

theorem requestLines_term_one {a : List Nat} (ha : listIndex crlf a = none) :
    requestLines (a ++ crlf) = some [a] := by
  unfold requestLines
  have h1 : splitN crlf 3 (a ++ crlf) = [a, []] := by
    have := splitN_crlf_step 1 a [] ha
    rw [List.append_nil] at this
    rw [this, splitN_crlf_two_empty]
  rw [h1, stripLastEmpty_pair_empty, trimLastLine_single, trimSuffix_of_no_crlf ha]

theorem requestLines_bare_two {a b : List Nat} (ha : listIndex crlf a = none)
    (hb : listIndex crlf b = none) (hbne : b ≠ []) :
    requestLines (a ++ crlf ++ b) = some [a, b] := by
  unfold requestLines
  have h1 : splitN crlf 3 (a ++ crlf ++ b) = [a, b] := by
    rw [splitN_crlf_step 1 a b ha, splitN_two_none hb]
  rw [h1, stripLastEmpty_pair_ne a hbne, trimLastLine_pair, trimSuffix_of_no_crlf hb]

theorem requestLines_term_two {a b : List Nat} (ha : listIndex crlf a = none)
    (hb : listIndex crlf b = none) :
    requestLines (a ++ crlf ++ b ++ crlf) = some [a, b] := by
  unfold requestLines
  have h1 : splitN crlf 3 (a ++ crlf ++ b ++ crlf) = [a, b, []] := by
    have he : a ++ crlf ++ b ++ crlf = a ++ crlf ++ (b ++ crlf ++ []) := by simp
    rw [he, splitN_crlf_step 1 a (b ++ crlf ++ []) ha]
    rw [show b ++ crlf ++ [] = b ++ crlf ++ ([] : List Nat) from rfl]
    rw [splitN_crlf_two_boundary [] hb]
  rw [h1, stripLastEmpty_triple_empty, trimLastLine_pair, trimSuffix_of_no_crlf hb]

theorem requestLines_three {a b r : List Nat} (ha : listIndex crlf a = none)
    (hb : listIndex crlf b = none) (hrne : r ≠ []) :
    requestLines (a ++ crlf ++ b ++ crlf ++ r) = some [a, b, trimSuffix crlf r] := by
  unfold requestLines
  have h1 : splitN crlf 3 (a ++ crlf ++ b ++ crlf ++ r) = [a, b, r] := by
    have he : a ++ crlf ++ b ++ crlf ++ r = a ++ crlf ++ (b ++ crlf ++ r) := by simp
    rw [he, splitN_crlf_step 1 a (b ++ crlf ++ r) ha, splitN_crlf_two_boundary r hb]
  rw [h1, stripLastEmpty_triple_ne a b hrne, trimLastLine_triple]

theorem header_line_no_crlf {c : List Nat} (hc : listIndex crlf c = none) :
    listIndex crlf (rcspBytes ++ 32 :: c) = none := by
  have he : rcspBytes ++ 32 :: c = (rcspBytes ++ [32]) ++ c := by simp
  rw [he]
  refine listIndex_crlf_append_none (by decide) hc ?_
  intro z hz hzv
  have hg : (rcspBytes ++ [32]).getLast? = some 32 := by decide
  rw [hg] at hz
  have h32 : z = 32 := (Option.some.inj hz).symm
  omega

theorem key_line_no_crlf {kb : List Nat} (hk : listIndex crlf kb = none) :
    listIndex crlf (bytesOfString "KEY: " ++ kb) = none := by
  refine listIndex_crlf_append_none (by decide) hk ?_
  intro z hz hzv
  have hg : (bytesOfString "KEY: ").getLast? = some 32 := by decide
  rw [hg] at hz
  have h32 : z = 32 := (Option.some.inj hz).symm
  omega

theorem value_line_no_crlf {vb : List Nat} (hv : listIndex crlf vb = none) :
    listIndex crlf (bytesOfString "VALUE: " ++ vb) = none := by
  refine listIndex_crlf_append_none (by decide) hv ?_
  intro z hz hzv
  have hg : (bytesOfString "VALUE: ").getLast? = some 32 := by decide
  rw [hg] at hz
  have h32 : z = 32 := (Option.some.inj hz).symm
  omega

theorem listIndex_colonSp_key (kb : List Nat) :
    listIndex colonSp (bytesOfString "KEY: " ++ kb) = some 3 := by
  show listIndex [58, 32] (75 :: 69 :: 89 :: 58 :: 32 :: kb) = some 3
  rw [listIndex, if_neg (by simp [List.isPrefixOf])]
  rw [listIndex, if_neg (by simp [List.isPrefixOf])]
  rw [listIndex, if_neg (by simp [List.isPrefixOf])]
  rw [listIndex, if_pos (by simp [List.isPrefixOf])]
  rfl

theorem listIndex_colonSp_value (vb : List Nat) :
    listIndex colonSp (bytesOfString "VALUE: " ++ vb) = some 5 := by
  show listIndex [58, 32] (86 :: 65 :: 76 :: 85 :: 69 :: 58 :: 32 :: vb) = some 5
  rw [listIndex, if_neg (by simp [List.isPrefixOf])]
  rw [listIndex, if_neg (by simp [List.isPrefixOf])]
  rw [listIndex, if_neg (by simp [List.isPrefixOf])]
  rw [listIndex, if_neg (by simp [List.isPrefixOf])]
  rw [listIndex, if_neg (by simp [List.isPrefixOf])]
  rw [listIndex, if_pos (by simp [List.isPrefixOf])]
  rfl

theorem parseKeyStep_field (kb : List Nat) (r : Request) (e : Option MsgError) :
    parseKeyStep (bytesOfString "KEY: " ++ kb) r e = ({ r with key := some kb }, e) := by
  unfold parseKeyStep
  rw [splitN_two_some (listIndex_colonSp_key kb)]
  rfl

theorem parseValueStep_field (vb : List Nat) (r : Request) (e : Option MsgError) :
    parseValueStep (bytesOfString "VALUE: " ++ vb) r e = ({ r with value := some vb }, e) := by
  unfold parseValueStep
  rw [splitN_two_some (listIndex_colonSp_value vb)]
  rfl

theorem parseKeyStep_no_sep {line : List Nat} (h : listIndex colonSp line = none)
    (r : Request) (e : Option MsgError) :
    parseKeyStep line r e = (r, some MsgError.invalidKey) := by
  unfold parseKeyStep
  rw [splitN_two_none h]

theorem parseValueStep_no_sep {line : List Nat} (h : listIndex colonSp line = none)
    (r : Request) (e : Option MsgError) :
    parseValueStep line r e = (r, some MsgError.malformedRequest) := by
  unfold parseValueStep
  rw [splitN_two_none h]

theorem splitElem_header {c : List Nat} (hc : 32 ∉ c) :
    splitElem 32 (rcspBytes ++ 32 :: c) = [rcspBytes, c] := by
  rw [splitElem_append c (by decide), splitElem_of_not_mem hc]

theorem parseFromLines_cons (line0 : List Nat) (restLines : List (List Nat)) :
    parseFromLines (line0 :: restLines) =
      match splitElem 32 line0 with
      | [t0, t1] =>
        if t0 = rcspBytes then
          match restLines with
          | [] => some ((⟨some t1, none, none⟩ : Request), none)
          | line1 :: rest2 =>
            match rest2 with
            | [] => some (parseKeyStep line1 ⟨some t1, none, none⟩ none)
            | line2 :: _ =>
              some (parseValueStep line2 (parseKeyStep line1 ⟨some t1, none, none⟩ none).1
                (parseKeyStep line1 ⟨some t1, none, none⟩ none).2)
        else some (⟨none, none, none⟩, some MsgError.unknownProtocol)
      | _ => some (⟨none, none, none⟩, some MsgError.unknownProtocol) := rfl

theorem parseFromLines_one {c : List Nat} (hc : 32 ∉ c) :
    parseFromLines [rcspBytes ++ 32 :: c] = some (⟨some c, none, none⟩, none) := by
  rw [parseFromLines_cons, splitElem_header hc]
  exact rfl

theorem parseFromLines_two {c : List Nat} (hc : 32 ∉ c) (l1 : List Nat) :
    parseFromLines [rcspBytes ++ 32 :: c, l1] =
      some (parseKeyStep l1 ⟨some c, none, none⟩ none) := by
  rw [parseFromLines_cons, splitElem_header hc]
  exact rfl

theorem parseFromLines_three {c : List Nat} (hc : 32 ∉ c) (l1 l2 : List Nat) :
    parseFromLines [rcspBytes ++ 32 :: c, l1, l2] =
      some (parseValueStep l2 (parseKeyStep l1 ⟨some c, none, none⟩ none).1
        (parseKeyStep l1 ⟨some c, none, none⟩ none).2) := by
  rw [parseFromLines_cons, splitElem_header hc]
  exact rfl

theorem parseRequest_of_lines {msg : List Nat} (hne : msg ≠ []) {ls : List (List Nat)}
    (h : requestLines msg = some ls) : parseRequest msg = parseFromLines ls := by
  unfold parseRequest
  rw [if_neg hne, h]

theorem write_cmd (c : List Nat) :
    (Request.mk (some c) none none).write = rcspBytes ++ 32 :: c ++ crlf := by
  show bytesOfString "RCSP/1.0" ++ (32 :: c ++ crlf) ++ [] ++ [] = _
  simp [rcspBytes]

theorem write_cmd_key (c kb : List Nat) :
    (Request.mk (some c) (some kb) none).write
      = rcspBytes ++ 32 :: c ++ crlf ++ (bytesOfString "KEY: " ++ kb) ++ crlf := by
  show bytesOfString "RCSP/1.0" ++ (32 :: c ++ crlf)
      ++ (bytesOfString "KEY: " ++ kb ++ crlf) ++ [] = _
  simp [rcspBytes]

theorem write_cmd_key_value (c kb vb : List Nat) :
    (Request.mk (some c) (some kb) (some vb)).write
      = rcspBytes ++ 32 :: c ++ crlf ++ (bytesOfString "KEY: " ++ kb) ++ crlf
          ++ (bytesOfString "VALUE: " ++ vb) ++ crlf := by
  show bytesOfString "RCSP/1.0" ++ (32 :: c ++ crlf)
      ++ (bytesOfString "KEY: " ++ kb ++ crlf)
      ++ (bytesOfString "VALUE: " ++ vb ++ crlf) = _
  simp [rcspBytes]

theorem crlf_ne_nil : crlf ≠ [] := by decide

theorem append_crlf_ne_nil (x : List Nat) : x ++ crlf ≠ [] := by
  simp [crlf]

/-- C2, original statement refuted: the constructed request
`{command: "SET", key: nil, value: "v"}` is valid under the claim's side
conditions (no CRLF, no `": "` in any field), yet parsing its serialization
drops the value and reports `ErrMalformedRequest` instead of returning the
original request without error. -/
theorem c2_counterexample :
    parseRequest (Request.mk (some (bytesOfString "SET")) none
        (some (bytesOfString "v"))).write
      = some (⟨some (bytesOfString "SET"), none, none⟩, some MsgError.malformedRequest)
    ∧ (some (⟨some (bytesOfString "SET"), none, none⟩, some MsgError.malformedRequest)
        : Option (Request × Option MsgError))
      ≠ some (⟨some (bytesOfString "SET"), none, some (bytesOfString "v")⟩, none) :=
  ⟨by decide, by decide⟩

/-- C2 (amended): for every constructed request whose command contains no
space byte, whose command, key, and value contain neither CRLF nor the `": "`
field-separator sequence, and whose value is present only when a key is
present, serializing with `request.write` and parsing the produced bytes with
`parseRequest` yields the original request and no error (and no panic). -/
theorem c2_roundtrip (c : List Nat) (k v : Option (List Nat))
    (hcsp : 32 ∉ c)
    (hcc : listIndex crlf c = none)
    (hcs : listIndex colonSp c = none)
    (hkc : ∀ kb, k = some kb → listIndex crlf kb = none)
    (hks : ∀ kb, k = some kb → listIndex colonSp kb = none)
    (hvc : ∀ vb, v = some vb → listIndex crlf vb = none)
    (hvs : ∀ vb, v = some vb → listIndex colonSp vb = none)
    (hkv : v = none ∨ k ≠ none) :
    parseRequest (Request.mk (some c) k v).write = some (Request.mk (some c) k v, none) := by
  have hA : listIndex crlf (rcspBytes ++ 32 :: c) = none := header_line_no_crlf hcc
  cases k with
  | none =>
    cases v with
    | none =>
      rw [write_cmd]
      rw [parseRequest_of_lines (append_crlf_ne_nil _) (requestLines_term_one hA)]
      exact parseFromLines_one hcsp
    | some vb =>
      rcases hkv with h | h
      · exact absurd h (by simp)
      · exact absurd rfl h
  | some kb =>
    have hKL : listIndex crlf (bytesOfString "KEY: " ++ kb) = none :=
      key_line_no_crlf (hkc kb rfl)
    cases v with
    | none =>
      rw [write_cmd_key]
      rw [parseRequest_of_lines (append_crlf_ne_nil _)
        (requestLines_term_two hA hKL)]
      rw [parseFromLines_two hcsp, parseKeyStep_field]
    | some vb =>
      rw [write_cmd_key_value]
      have h3 := requestLines_three (a := rcspBytes ++ 32 :: c)
        (b := bytesOfString "KEY: " ++ kb)
        (r := (bytesOfString "VALUE: " ++ vb) ++ crlf) hA hKL (append_crlf_ne_nil _)
      rw [trimSuffix_append] at h3
      have hassoc : rcspBytes ++ 32 :: c ++ crlf ++ (bytesOfString "KEY: " ++ kb) ++ crlf
            ++ (bytesOfString "VALUE: " ++ vb) ++ crlf
          = rcspBytes ++ 32 :: c ++ crlf ++ (bytesOfString "KEY: " ++ kb) ++ crlf
            ++ ((bytesOfString "VALUE: " ++ vb) ++ crlf) := by simp
      rw [hassoc]
      rw [parseRequest_of_lines (by simp [crlf]) h3]
      rw [parseFromLines_three hcsp, parseKeyStep_field, parseValueStep_field]

theorem c2_roundtrip_witness :
    (32 ∉ bytesOfString "SET") ∧
      parseRequest (Request.mk (some (bytesOfString "SET")) (some (bytesOfString "k"))
          (some (bytesOfString "v"))).write
        = some (Request.mk (some (bytesOfString "SET")) (some (bytesOfString "k"))
            (some (bytesOfString "v")), none) :=
  ⟨by decide,
    c2_roundtrip (bytesOfString "SET") (some (bytesOfString "k")) (some (bytesOfString "v"))
      (by decide) (by decide) (by decide)
      (by intro kb h; injection h with h1; subst h1; decide)
      (by intro kb h; injection h with h1; subst h1; decide)
      (by intro vb h; injection h with h1; subst h1; decide)
      (by intro vb h; injection h with h1; subst h1; decide)
      (Or.inr (by simp))⟩

/-- C4, original statement refuted: the message
`"RCSP/1.0 SET\r\nKEY: k\r\nVALUE v"` carries a VALUE field line lacking the
`": "` separator, yet `parseRequest` reports `ErrMalformedRequest`, not
`ErrInvalidValue` (which `parseRequest` never produces). -/
theorem c4_counterexample :
    parseRequest (bytesOfString "RCSP/1.0 SET\r\nKEY: k\r\nVALUE v")
      = some (⟨some (bytesOfString "SET"), some (bytesOfString "k"), none⟩,
          some MsgError.malformedRequest)
    ∧ MsgError.malformedRequest ≠ MsgError.invalidValue :=
  ⟨by decide, by decide⟩

/-- C4 (amended): for every request message with a well-formed header and key
line whose third line is present but lacks the `": "` separator (after CRLF
trimming), `parseRequest` reports `ErrMalformedRequest` — never
`ErrInvalidValue`; and for every message with a well-formed header whose
second (KEY) field line is present but lacks the `": "` separator,
`parseRequest` reports `ErrInvalidKey`. -/
theorem c4_field_line_errors :
    (∀ c kb junk : List Nat, 32 ∉ c → listIndex crlf c = none →
      listIndex crlf kb = none → junk ≠ [] →
      listIndex colonSp (trimSuffix crlf junk) = none →
      parseRequest (rcspBytes ++ 32 :: c ++ crlf ++ (bytesOfString "KEY: " ++ kb) ++ crlf
          ++ junk)
        = some (⟨some c, some kb, none⟩, some MsgError.malformedRequest))
    ∧ (∀ c kline : List Nat, 32 ∉ c → listIndex crlf c = none →
      listIndex crlf kline = none → kline ≠ [] →
      listIndex colonSp kline = none →
      parseRequest (rcspBytes ++ 32 :: c ++ crlf ++ kline)
        = some (⟨some c, none, none⟩, some MsgError.invalidKey)) := by
  constructor
  · intro c kb junk hcsp hcc hkb hjne hjsep
    have hA : listIndex crlf (rcspBytes ++ 32 :: c) = none := header_line_no_crlf hcc
    have hKL : listIndex crlf (bytesOfString "KEY: " ++ kb) = none := key_line_no_crlf hkb
    rw [parseRequest_of_lines (by simp [hjne])
      (requestLines_three hA hKL hjne)]
    rw [parseFromLines_three hcsp, parseKeyStep_field, parseValueStep_no_sep hjsep]
  · intro c kline hcsp hcc hkl hkne hksep
    have hA : listIndex crlf (rcspBytes ++ 32 :: c) = none := header_line_no_crlf hcc
    rw [parseRequest_of_lines (by simp [hkne])
      (requestLines_bare_two hA hkl hkne)]
    rw [parseFromLines_two hcsp, parseKeyStep_no_sep hksep]

theorem c4_field_line_errors_witness :
    parseRequest (rcspBytes ++ 32 :: bytesOfString "SET" ++ crlf
        ++ (bytesOfString "KEY: " ++ bytesOfString "k") ++ crlf
        ++ bytesOfString "VALUE v")
      = some (⟨some (bytesOfString "SET"), some (bytesOfString "k"), none⟩,
          some MsgError.malformedRequest)
    ∧ parseRequest (rcspBytes ++ 32 :: bytesOfString "SET" ++ crlf
        ++ bytesOfString "KEYnosep")
      = some (⟨some (bytesOfString "SET"), none, none⟩, some MsgError.invalidKey) :=
  ⟨(c4_field_line_errors).1 (bytesOfString "SET") (bytesOfString "k")
      (bytesOfString "VALUE v") (by decide) (by decide) (by decide) (by decide) (by decide),
    (c4_field_line_errors).2 (bytesOfString "SET") (bytesOfString "KEYnosep")
      (by decide) (by decide) (by decide) (by decide) (by decide)⟩

/-! ### Shape analysis of `requestLines` on arbitrary input -/

theorem crlf_len : crlf.length = 2 := rfl

theorem requestLines_cases (msg : List Nat) (hne : msg ≠ []) :
    (listIndex crlf msg = none ∧ requestLines msg = some [msg])
    ∨ (∃ a, msg = a ++ crlf ∧ listIndex crlf a = none ∧ requestLines msg = some [a])
    ∨ (∃ a b, msg = a ++ crlf ++ b ∧ b ≠ [] ∧ listIndex crlf a = none ∧
        listIndex crlf b = none ∧ requestLines msg = some [a, b])
    ∨ (∃ a b, msg = a ++ crlf ++ b ++ crlf ∧ listIndex crlf a = none ∧
        listIndex crlf b = none ∧ requestLines msg = some [a, b])
    ∨ (∃ a b r, msg = a ++ crlf ++ b ++ crlf ++ r ∧ r ≠ [] ∧ listIndex crlf a = none ∧
        listIndex crlf b = none ∧ requestLines msg = some [a, b, trimSuffix crlf r]) := by
  cases hi : listIndex crlf msg with
  | none => exact Or.inl ⟨rfl, requestLines_bare_one hi hne⟩
  | some i =>
    have hmsg := eq_of_listIndex_some hi
    rw [crlf_len] at hmsg
    set a := msg.take i with ha_def
    set r0 := msg.drop (i + 2) with hr0_def
    have ha : listIndex crlf a = none := listIndex_take_eq_none (by decide) hi
    by_cases hr0 : r0 = []
    · refine Or.inr (Or.inl ⟨a, ?_, ha, ?_⟩)
      · rw [hmsg, hr0, List.append_nil]
      · rw [hmsg, hr0, List.append_nil]
        exact requestLines_term_one ha
    · cases hj : listIndex crlf r0 with
      | none =>
        refine Or.inr (Or.inr (Or.inl ⟨a, r0, hmsg, hr0, ha, hj, ?_⟩))
        rw [hmsg]
        exact requestLines_bare_two ha hj hr0
      | some j =>
        have hr0eq := eq_of_listIndex_some hj
        rw [crlf_len] at hr0eq
        set b := r0.take j with hb_def
        set r1 := r0.drop (j + 2) with hr1_def
        have hb : listIndex crlf b = none := listIndex_take_eq_none (by decide) hj
        have hmsg2 : msg = a ++ crlf ++ b ++ crlf ++ r1 := by
          rw [hmsg, hr0eq]
          simp
        by_cases hr1 : r1 = []
        · refine Or.inr (Or.inr (Or.inr (Or.inl ⟨a, b, ?_, ha, hb, ?_⟩)))
          · rw [hmsg2, hr1, List.append_nil]
          · rw [hmsg2, hr1, List.append_nil]
            exact requestLines_term_two ha hb
        · refine Or.inr (Or.inr (Or.inr (Or.inr ⟨a, b, r1, hmsg2, hr1, ha, hb, ?_⟩)))
          rw [hmsg2]
          exact requestLines_three ha hb hr1

theorem parseFromLines_isSome (ls : List (List Nat)) (h : ls ≠ []) :
    (parseFromLines ls).isSome = true := by
  cases ls with
  | nil => exact absurd rfl h
  | cons l0 rest =>
    rw [parseFromLines_cons]
    split
    · split
      · cases rest with
        | nil => rfl
        | cons l1 rest2 => cases rest2 <;> rfl
      · rfl
    · rfl

theorem isSuffixOf_of_right {r : List Nat} (y : List Nat) (h : crlf.isSuffixOf r = true) :
    crlf.isSuffixOf (y ++ r) = true := by
  obtain ⟨x, rfl⟩ := suffix_decomp h
  rw [← List.append_assoc]
  exact isSuffixOf_append_self (y ++ x) crlf

theorem trimSuffix_of_not_suffix {s : List Nat} (h : crlf.isSuffixOf s = false) :
    trimSuffix crlf s = s := by
  unfold trimSuffix
  rw [h]
  simp

theorem requestLines_append_crlf (msg : List Nat) (hne : msg ≠ [])
    (hsuf : crlf.isSuffixOf msg = false) :
    requestLines (msg ++ crlf) = requestLines msg := by
  cases hi : listIndex crlf msg with
  | none =>
    rw [requestLines_term_one hi, requestLines_bare_one hi hne]
  | some i =>
    have hmsg := eq_of_listIndex_some hi
    rw [crlf_len] at hmsg
    set a := msg.take i with ha_def
    set r0 := msg.drop (i + 2) with hr0_def
    have ha : listIndex crlf a = none := listIndex_take_eq_none (by decide) hi
    have hr0 : r0 ≠ [] := by
      intro hc
      rw [hmsg, hc, List.append_nil] at hsuf
      rw [isSuffixOf_append_self] at hsuf
      simp at hsuf
    cases hj : listIndex crlf r0 with
    | none =>
      have h1 : requestLines msg = some [a, r0] := by
        rw [hmsg]; exact requestLines_bare_two ha hj hr0
      have h2 : requestLines (msg ++ crlf) = some [a, r0] := by
        rw [hmsg]; exact requestLines_term_two ha hj
      rw [h1, h2]
    | some j =>
      have hr0eq := eq_of_listIndex_some hj
      rw [crlf_len] at hr0eq
      set b := r0.take j with hb_def
      set r1 := r0.drop (j + 2) with hr1_def
      have hb : listIndex crlf b = none := listIndex_take_eq_none (by decide) hj
      have hmsg2 : msg = a ++ crlf ++ b ++ crlf ++ r1 := by
        rw [hmsg, hr0eq]; simp
      have hr1 : r1 ≠ [] := by
        intro hc
        rw [hmsg2, hc, List.append_nil] at hsuf
        rw [isSuffixOf_append_self] at hsuf
        simp at hsuf
      have hr1suf : crlf.isSuffixOf r1 = false := by
        cases hcs : crlf.isSuffixOf r1 with
        | false => rfl
        | true =>
          rw [hmsg2] at hsuf
          rw [show a ++ crlf ++ b ++ crlf ++ r1
              = (a ++ crlf ++ b ++ crlf) ++ r1 from by simp] at hsuf
          rw [isSuffixOf_of_right _ hcs] at hsuf
          simp at hsuf
      have h1 : requestLines msg = some [a, b, r1] := by
        rw [hmsg2, requestLines_three ha hb hr1, trimSuffix_of_not_suffix hr1suf]
      have h2 : requestLines (msg ++ crlf) = some [a, b, r1] := by
        rw [hmsg2]
        rw [show a ++ crlf ++ b ++ crlf ++ r1 ++ crlf
            = a ++ crlf ++ b ++ crlf ++ (r1 ++ crlf) from by simp]
        rw [requestLines_three ha hb (append_crlf_ne_nil r1), trimSuffix_append]
      rw [h1, h2]

/-! ### Inversion of a successful parse -/

theorem key_field_assemble (b : List Nat) :
    keyBytes ++ colonSp ++ b = bytesOfString "KEY: " ++ b := by
  rw [show keyBytes ++ colonSp = bytesOfString "KEY: " from by decide]

theorem value_field_assemble (b : List Nat) :
    valueBytes ++ colonSp ++ b = bytesOfString "VALUE: " ++ b := by
  rw [show valueBytes ++ colonSp = bytesOfString "VALUE: " from by decide]

theorem splitN_two_pair {sep l a b : List Nat} (h : splitN sep 2 l = [a, b]) :
    l = a ++ sep ++ b := by
  rw [splitN_two] at h
  cases hi : listIndex sep l with
  | none =>
    rw [hi] at h
    simp at h
  | some i =>
    rw [hi] at h
    simp only [List.cons.injEq, and_true] at h
    obtain ⟨rfl, rfl⟩ := h
    exact eq_of_listIndex_some hi

theorem parseKeyStep_inv {l1 : List Nat} {r0 r1 : Request} {e : Option MsgError}
    (h : parseKeyStep l1 r0 none = (r1, e)) (he : e = none) :
    ∃ kb, l1 = bytesOfString "KEY: " ++ kb ∧ r1 = { r0 with key := some kb } := by
  subst he
  unfold parseKeyStep at h
  split at h
  next a b heq =>
    split at h
    next ht =>
      injection h with h1 h2
      refine ⟨b, ?_, h1.symm⟩
      have hl := splitN_two_pair heq
      rw [ht] at hl
      rw [hl, key_field_assemble]
    next ht =>
      injection h with h1 h2
      simp at h2
  next heq2 =>
    injection h with h1 h2
    simp at h2

theorem parseValueStep_inv {l2 : List Nat} {r1 r2 : Request} {e1 e : Option MsgError}
    (h : parseValueStep l2 r1 e1 = (r2, e)) (he : e = none) :
    ∃ vb, l2 = bytesOfString "VALUE: " ++ vb ∧ r2 = { r1 with value := some vb } ∧
      e1 = none := by
  subst he
  unfold parseValueStep at h
  split at h
  next a b heq =>
    split at h
    next ht =>
      injection h with h1 h2
      refine ⟨b, ?_, h1.symm, h2⟩
      have hl := splitN_two_pair heq
      rw [ht] at hl
      rw [hl, value_field_assemble]
    next ht =>
      injection h with h1 h2
      simp at h2
  next heq2 =>
    injection h with h1 h2
    simp at h2

theorem parseFromLines_one_inv {l0 : List Nat} {req : Request}
    (h : parseFromLines [l0] = some (req, none)) :
    ∃ c, 32 ∉ c ∧ l0 = rcspBytes ++ 32 :: c ∧ req = ⟨some c, none, none⟩ := by
  rw [parseFromLines_cons] at h
  split at h
  next t0 t1 heq =>
    split at h
    next ht =>
      simp only [Option.some.injEq, Prod.mk.injEq] at h
      obtain ⟨hreq, -⟩ := h
      obtain ⟨hl0, hm0, hm1⟩ := splitElem_pair heq
      exact ⟨t1, hm1, by rw [hl0, ht], hreq.symm⟩
    next ht => simp at h
  next => simp at h

theorem parseFromLines_two_inv {l0 l1 : List Nat} {req : Request}
    (h : parseFromLines [l0, l1] = some (req, none)) :
    ∃ c kb, 32 ∉ c ∧ l0 = rcspBytes ++ 32 :: c ∧ l1 = bytesOfString "KEY: " ++ kb ∧
      req = ⟨some c, some kb, none⟩ := by
  rw [parseFromLines_cons] at h
  split at h
  next t0 t1 heq =>
    split at h
    next ht =>
      have h2 : parseKeyStep l1 ⟨some t1, none, none⟩ none = (req, none) :=
        Option.some.inj h
      obtain ⟨kb, hl1, hreq⟩ := parseKeyStep_inv h2 rfl
      obtain ⟨hl0, hm0, hm1⟩ := splitElem_pair heq
      exact ⟨t1, kb, hm1, by rw [hl0, ht], hl1, by rw [hreq]⟩
    next ht => simp at h
  next => simp at h

theorem parseFromLines_three_inv {l0 l1 l2 : List Nat} {req : Request}
    (h : parseFromLines [l0, l1, l2] = some (req, none)) :
    ∃ c kb vb, 32 ∉ c ∧ l0 = rcspBytes ++ 32 :: c ∧ l1 = bytesOfString "KEY: " ++ kb ∧
      l2 = bytesOfString "VALUE: " ++ vb ∧ req = ⟨some c, some kb, some vb⟩ := by
  rw [parseFromLines_cons] at h
  split at h
  next t0 t1 heq =>
    split at h
    next ht =>
      have h2 : parseValueStep l2 (parseKeyStep l1 ⟨some t1, none, none⟩ none).1
          (parseKeyStep l1 ⟨some t1, none, none⟩ none).2 = (req, none) :=
        Option.some.inj h
      obtain ⟨vb, hl2, hreq2, he1⟩ := parseValueStep_inv h2 rfl
      have hkey : parseKeyStep l1 ⟨some t1, none, none⟩ none
          = ((parseKeyStep l1 ⟨some t1, none, none⟩ none).1,
             (parseKeyStep l1 ⟨some t1, none, none⟩ none).2) := rfl
      obtain ⟨kb, hl1, hr1⟩ := parseKeyStep_inv hkey he1
      obtain ⟨hl0, hm0, hm1⟩ := splitElem_pair heq
      refine ⟨t1, kb, vb, hm1, by rw [hl0, ht], hl1, hl2, ?_⟩
      rw [hreq2, hr1]
    next ht => simp at h
  next => simp at h

theorem requestLines_isSome (msg : List Nat) (hne : msg ≠ []) :
    ∃ ls, requestLines msg = some ls ∧ ls ≠ [] := by
  rcases requestLines_cases msg hne with ⟨-, hl⟩ | ⟨a, -, -, hl⟩ | ⟨a, b, -, -, -, -, hl⟩
    | ⟨a, b, -, -, -, hl⟩ | ⟨a, b, r, -, -, -, -, hl⟩ <;>
    exact ⟨_, hl, by simp⟩

/-- C5: `parseRequest` is total: on every input byte string — empty,
truncated, bare, or CRLF-terminated — it reaches a result without any
out-of-range slice access (the Go code cannot panic); a bare message and its
CRLF-terminated form parse identically; and whenever no parse error is
reported the input was exactly a serialized request (possibly with the final
CRLF omitted), so every input outside the request grammar yields a parse
error. -/
theorem c5_parse_total :
    (∀ msg : List Nat, (parseRequest msg).isSome = true)
    ∧ (∀ msg : List Nat, msg ≠ [] → crlf.isSuffixOf msg = false →
        parseRequest (msg ++ crlf) = parseRequest msg)
    ∧ (∀ (msg : List Nat) (req : Request),
        parseRequest msg = some (req, none) →
        msg = req.write ∨ msg ++ crlf = req.write) := by
  refine ⟨?_, ?_, ?_⟩
  · intro msg
    by_cases hne : msg = []
    · subst hne; rfl
    · obtain ⟨ls, hl, hlsne⟩ := requestLines_isSome msg hne
      rw [parseRequest_of_lines hne hl]
      exact parseFromLines_isSome ls hlsne
  · intro msg hne hsuf
    obtain ⟨ls, hl, -⟩ := requestLines_isSome msg hne
    rw [parseRequest_of_lines (append_crlf_ne_nil msg)
        ((requestLines_append_crlf msg hne hsuf).trans hl),
      parseRequest_of_lines hne hl]
  · intro msg req h
    by_cases hne : msg = []
    · subst hne
      simp [parseRequest] at h
    · rcases requestLines_cases msg hne with ⟨-, hl⟩ | ⟨a, hmsg, -, hl⟩
        | ⟨a, b, hmsg, -, -, -, hl⟩ | ⟨a, b, hmsg, -, -, hl⟩
        | ⟨a, b, r, hmsg, hrne, -, -, hl⟩
      · rw [parseRequest_of_lines hne hl] at h
        obtain ⟨c, hc, hl0, hreq⟩ := parseFromLines_one_inv h
        right
        rw [hreq, write_cmd, hl0]
      · rw [parseRequest_of_lines hne hl] at h
        obtain ⟨c, hc, hl0, hreq⟩ := parseFromLines_one_inv h
        left
        rw [hreq, write_cmd, hmsg, hl0]
      · rw [parseRequest_of_lines hne hl] at h
        obtain ⟨c, kb, hc, hl0, hl1, hreq⟩ := parseFromLines_two_inv h
        right
        rw [hreq, write_cmd_key, hmsg, hl0, hl1]
      · rw [parseRequest_of_lines hne hl] at h
        obtain ⟨c, kb, hc, hl0, hl1, hreq⟩ := parseFromLines_two_inv h
        left
        rw [hreq, write_cmd_key, hmsg, hl0, hl1]
      · rw [parseRequest_of_lines hne hl] at h
        obtain ⟨c, kb, vb, hc, hl0, hl1, hl2, hreq⟩ := parseFromLines_three_inv h
        cases hsufr : crlf.isSuffixOf r with
        | true =>
          left
          have hr2 : r = (bytesOfString "VALUE: " ++ vb) ++ crlf := by
            have hd := trimSuffix_decomp (s := r) hsufr
            rw [hl2] at hd
            exact hd
          rw [hreq, write_cmd_key_value, hmsg, hl0, hl1, hr2]
          simp
        | false =>
          right
          have hr2 : r = bytesOfString "VALUE: " ++ vb := by
            rw [← hl2, trimSuffix_of_not_suffix hsufr]
          rw [hreq, write_cmd_key_value, hmsg, hl0, hl1, hr2]

theorem c5_parse_total_witness :
    (parseRequest (bytesOfString "RCSP/1.0 GET")).isSome = true ∧
      (bytesOfString "RCSP/1.0 GET" ≠ []) ∧
      parseRequest (bytesOfString "RCSP/1.0 GET" ++ crlf)
        = parseRequest (bytesOfString "RCSP/1.0 GET") ∧
      (bytesOfString "RCSP/1.0 GET" ++ crlf
          = (Request.mk (some (bytesOfString "GET")) none none).write
        ∨ bytesOfString "RCSP/1.0 GET" ++ crlf ++ crlf
          = (Request.mk (some (bytesOfString "GET")) none none).write) :=
  ⟨(c5_parse_total).1 (bytesOfString "RCSP/1.0 GET"),
    by decide,
    (c5_parse_total).2.1 (bytesOfString "RCSP/1.0 GET") (by decide) (by decide),
    (c5_parse_total).2.2 (bytesOfString "RCSP/1.0 GET" ++ crlf)
      (Request.mk (some (bytesOfString "GET")) none none) (by decide)⟩
